import Mathlib

/-!
# Verification of the WhatsApp link-pipeline scripts

A shallow embedding of the link-intelligence pipeline of
`maluta/whatsapp_cli_tools` (the Python scripts `extract_links.py`,
`update_links.py`, `enrich_links.py`), together with theorems settling the
specification claims about it.

Python strings are modelled as `List Char` (Lean characters are exactly the
Unicode scalar values a Python `str` holds, minus lone surrogates, which
cannot arise in this pipeline).  The URL machinery from `urllib.parse`
(CPython 3.11, the version the scripts require) is embedded function by
function; regular-expression matching is embedded as the equivalent
deterministic scanners (the patterns used by the scripts backtrack only in
ways resolved below).  Character classes `\s`, `\d` and `str.lower` are
modelled on their ASCII parts, which is exact for every string the scripts
manipulate in the claims below.
-/

set_option linter.unusedVariables false

namespace WaTools

/-- Python `str`, modelled as a list of Unicode scalar values. -/
abbrev Str := List Char

/-- Shorthand turning a Lean string literal into the model type. -/
def sL (s : String) : Str := s.toList

/-! ## Basic character classes and list utilities -/

/-- The ASCII part of the regex class `\s` (and of `str.isspace`). -/
def isWsM (c : Char) : Bool :=
  c = ' ' || c = '\t' || c = '\n' || c = '\r' || c = Char.ofNat 11 || c = Char.ofNat 12

/-- The characters `urlsplit` removes from its input before parsing
(`_UNSAFE_URL_BYTES_TO_REMOVE = ['\t', '\r', '\n']`). -/
def isTabCrLf (c : Char) : Bool := c = '\t' || c = '\r' || c = '\n'

/-- Models the `url.replace(b, "")` loop at the top of `urlsplit`. -/
def stripControlChars (l : Str) : Str := l.filter (fun c => !(isTabCrLf c))

/-- `scheme_chars` of `urllib.parse`: letters, digits and `+-.` (all ASCII). -/
def isSchemeChar (c : Char) : Bool := c.isAlpha || c.isDigit || c = '+' || c = '-' || c = '.'

/-- ASCII lowercasing, as applied by CPython to the (ASCII-validated) scheme
and to domain names. -/
def lowerStr (l : Str) : Str := l.map Char.toLower

/-- Split at the first occurrence of `d`: `some (before, after)`, or `none`
when `d` does not occur.  Models `str.find` plus slicing, and
`str.split(d, 1)`. -/
def splitAtFirst (d : Char) : Str → Option (Str × Str)
  | [] => none
  | c :: cs =>
    if c = d then some ([], cs)
    else
      match splitAtFirst d cs with
      | none => none
      | some (a, b) => some (c :: a, b)

/-- Python `str.split(d)`: always returns at least one (possibly empty) piece. -/
def splitOnChar (d : Char) : Str → List Str
  | [] => [[]]
  | c :: cs =>
    if c = d then [] :: splitOnChar d cs
    else
      match splitOnChar d cs with
      | p :: ps => (c :: p) :: ps
      | [] => [[c]]

/-- Python `d.join(pieces)` for a one-character separator. -/
def intercalateChar (d : Char) : List Str → Str
  | [] => []
  | [x] => x
  | x :: xs => x ++ d :: intercalateChar d xs

/-- Python `str.rstrip('/')`. -/
def rstripSlash (l : Str) : Str := (l.reverse.dropWhile (fun c => c = '/')).reverse

/-- Python `str.strip()` (ASCII whitespace part). -/
def stripWs (l : Str) : Str :=
  ((l.dropWhile isWsM).reverse.dropWhile isWsM).reverse

/-- Does `needle` occur at the start of `hay`?  Models `str.startswith`. -/
def startsWithL : Str → Str → Bool
  | _, [] => true
  | [], _ :: _ => false
  | c :: r, d :: s => c = d && startsWithL r s

/-- Does `needle` occur anywhere in `hay`?  Models Python `needle in hay`. -/
def hasSub : Str → Str → Bool
  | [], n => n.isEmpty
  | c :: r, n => startsWithL (c :: r) n || hasSub r n

/-! ## UTF-8 (the `str.encode('utf-8')` / `bytes.decode('utf-8', 'replace')`
used by `quote` and `unquote`) -/

/-- The UTF-8 encoding of one scalar value, as a list of byte values. -/
def utf8Bytes (c : Char) : List Nat :=
  let v := c.toNat
  if v < 128 then [v]
  else if v < 2048 then [192 + v / 64, 128 + v % 64]
  else if v < 65536 then [224 + v / 4096, 128 + v / 64 % 64, 128 + v % 64]
  else [240 + v / 262144, 128 + v / 4096 % 64, 128 + v / 64 % 64, 128 + v % 64]

/-- `str.encode('utf-8')`. -/
def utf8Encode (s : Str) : List Nat := s.foldr (fun c acc => utf8Bytes c ++ acc) []

/-- A UTF-8 continuation byte. -/
def isCont (b : Nat) : Bool := 128 ≤ b && b ≤ 191

/-- The second-byte range constraint of a three-byte sequence headed by `b0`
(it excludes overlong encodings and surrogates, as CPython does). -/
def cont3Ok (b0 b1 : Nat) : Bool :=
  if b0 = 224 then 160 ≤ b1 && b1 ≤ 191
  else if b0 = 237 then 128 ≤ b1 && b1 ≤ 159
  else isCont b1

/-- The second-byte range constraint of a four-byte sequence headed by `b0`. -/
def cont4Ok (b0 b1 : Nat) : Bool :=
  if b0 = 240 then 144 ≤ b1 && b1 ≤ 191
  else if b0 = 244 then 128 ≤ b1 && b1 ≤ 143
  else isCont b1

/-- The U+FFFD replacement character. -/
def replChar : Char := Char.ofNat 65533

/-- `bytes.decode('utf-8', errors='replace')`: strict UTF-8 with each maximal
invalid subpart replaced by U+FFFD. -/
def utf8DecodeReplace : List Nat → Str
  | [] => []
  | b0 :: r =>
    if b0 < 128 then Char.ofNat b0 :: utf8DecodeReplace r
    else if 194 ≤ b0 && b0 ≤ 223 then
      match r with
      | b1 :: r1 =>
        if isCont b1 then Char.ofNat ((b0 - 192) * 64 + (b1 - 128)) :: utf8DecodeReplace r1
        else replChar :: utf8DecodeReplace (b1 :: r1)
      | [] => [replChar]
    else if 224 ≤ b0 && b0 ≤ 239 then
      match r with
      | b1 :: r1 =>
        if cont3Ok b0 b1 then
          match r1 with
          | b2 :: r2 =>
            if isCont b2 then
              Char.ofNat ((b0 - 224) * 4096 + (b1 - 128) * 64 + (b2 - 128)) ::
                utf8DecodeReplace r2
            else replChar :: utf8DecodeReplace (b2 :: r2)
          | [] => [replChar]
        else replChar :: utf8DecodeReplace (b1 :: r1)
      | [] => [replChar]
    else if 240 ≤ b0 && b0 ≤ 244 then
      match r with
      | b1 :: r1 =>
        if cont4Ok b0 b1 then
          match r1 with
          | b2 :: r2 =>
            if isCont b2 then
              match r2 with
              | b3 :: r3 =>
                if isCont b3 then
                  Char.ofNat ((b0 - 240) * 262144 + (b1 - 128) * 4096 +
                      (b2 - 128) * 64 + (b3 - 128)) :: utf8DecodeReplace r3
                else replChar :: utf8DecodeReplace (b3 :: r3)
              | [] => [replChar]
            else replChar :: utf8DecodeReplace (b2 :: r2)
          | [] => [replChar]
        else replChar :: utf8DecodeReplace (b1 :: r1)
      | [] => [replChar]
    else replChar :: utf8DecodeReplace r

/-! ## Percent-encoding (`quote_plus` / `unquote_plus` with the defaults
`urlencode` and `parse_qsl` use: `safe=''`, utf-8, `errors='replace'`) -/

/-- An uppercase hexadecimal digit. -/
def hexDigitChar (n : Nat) : Char := if n < 10 then Char.ofNat (48 + n) else Char.ofNat (55 + n)

/-- The value of a hexadecimal digit character (`_hextobyte` accepts both
cases). -/
def hexVal (c : Char) : Option Nat :=
  if '0' ≤ c && c ≤ '9' then some (c.toNat - 48)
  else if 'A' ≤ c && c ≤ 'F' then some (c.toNat - 55)
  else if 'a' ≤ c && c ≤ 'f' then some (c.toNat - 87)
  else none

/-- `_ALWAYS_SAFE` of `urllib.parse`: ASCII letters, digits, and `_.-~`. -/
def alwaysSafe (b : Nat) : Bool :=
  (65 ≤ b && b ≤ 90) || (97 ≤ b && b ≤ 122) || (48 ≤ b && b ≤ 57) ||
    b = 95 || b = 46 || b = 45 || b = 126

/-- How `quote_plus` (with `safe=''`) renders one byte: space becomes `+`,
always-safe bytes stay literal, everything else becomes `%XX`. -/
def quoteBytePlus (b : Nat) : Str :=
  if b = 32 then ['+']
  else if alwaysSafe b then [Char.ofNat b]
  else ['%', hexDigitChar (b / 16), hexDigitChar (b % 16)]

/-- `quote_plus(s, safe='')` as `urlencode` applies it to names and values. -/
def quote_plus (s : Str) : Str :=
  (utf8Encode s).foldr (fun b acc => quoteBytePlus b ++ acc) []

/-- The `.replace('+', ' ')` step of `unquote_plus` / `parse_qsl`. -/
def plusToSpace (s : Str) : Str := s.map (fun c => if c = '+' then ' ' else c)

/-- `unquote_to_bytes` on an ASCII chunk: literal characters keep their code,
`%XX` with two hex digits yields the byte, a `%` not followed by two hex
digits stays literal. -/
def pctDecodeBytes : Str → List Nat
  | [] => []
  | '%' :: c1 :: c2 :: r =>
    match hexVal c1, hexVal c2 with
    | some a, some b => (16 * a + b) :: pctDecodeBytes r
    | _, _ => 37 :: pctDecodeBytes (c1 :: c2 :: r)
  | '%' :: r => 37 :: pctDecodeBytes r
  | c :: r => c.toNat :: pctDecodeBytes r

/-- Is the character ASCII?  (`unquote` percent-decodes only maximal ASCII
runs; other characters pass through unchanged.) -/
def isAsciiCh (c : Char) : Bool := c.toNat < 128

/-- Worker for `unquoteM`: `buf` holds the current ASCII run, reversed. -/
def unquoteAux : Str → Str → Str
  | [], buf => utf8DecodeReplace (pctDecodeBytes buf.reverse)
  | c :: r, buf =>
    if isAsciiCh c then unquoteAux r (c :: buf)
    else utf8DecodeReplace (pctDecodeBytes buf.reverse) ++ c :: unquoteAux r []

/-- `unquote(s, encoding='utf-8', errors='replace')`: each maximal ASCII run
is percent-decoded to bytes and UTF-8-decoded with replacement; non-ASCII
characters pass through. -/
def unquoteM (s : Str) : Str := unquoteAux s []

/-- `unquote_plus` with the defaults `parse_qsl` uses. -/
def unquote_plusM (s : Str) : Str := unquoteM (plusToSpace s)

/-! ## `urlsplit` / `urlparse` / `urlunparse` (CPython 3.11) -/

/-- The result of `urlsplit` (its `url` slot is the path, still carrying any
parameters). -/
structure SplitR where
  scheme : Str
  netloc : Str
  path : Str
  query : Str
  fragment : Str
  deriving DecidableEq, Repr

/-- The result of `urlparse`. -/
structure ParseR where
  scheme : Str
  netloc : Str
  path : Str
  params : Str
  query : Str
  fragment : Str
  deriving DecidableEq, Repr

/-- `uses_params` of `urllib.parse`. -/
def uses_params : List Str :=
  [sL "", sL "ftp", sL "hdl", sL "prospero", sL "http", sL "imap", sL "https",
   sL "shttp", sL "rtsp", sL "rtspu", sL "sip", sL "sips", sL "mms", sL "sftp", sL "tel"]

/-- `uses_netloc` of `urllib.parse`. -/
def uses_netloc : List Str :=
  [sL "", sL "ftp", sL "http", sL "gopher", sL "nntp", sL "telnet", sL "imap",
   sL "wais", sL "file", sL "mms", sL "https", sL "shttp", sL "snews",
   sL "prospero", sL "rtsp", sL "rtspu", sL "rsync", sL "svn", sL "svn+ssh",
   sL "sftp", sL "nfs", sL "git", sL "git+ssh", sL "ws", sL "wss"]

/-- The scheme-extraction step of `urlsplit`: `some (scheme.lower(), rest)`
when the text before the first `:` is a nonempty run of `scheme_chars`
starting with an ASCII letter. -/
def extractScheme (url : Str) : Option (Str × Str) :=
  match splitAtFirst ':' url with
  | none => none
  | some (pre, post) =>
    match pre with
    | [] => none
    | c0 :: _ => if c0.isAlpha && pre.all isSchemeChar then some (lowerStr pre, post) else none

/-- `_splitnetloc(url, 2)` without the two dropped slashes: the netloc runs to
the first of `/?#`. -/
def splitNetloc (l : Str) : Str × Str :=
  (l.takeWhile (fun c => !(c = '/' || c = '?' || c = '#')),
   l.dropWhile (fun c => !(c = '/' || c = '?' || c = '#')))

/-- The body of `urlsplit` after the control-character removal.
`_checknetloc`'s NFKC-expansion check (which rejects only exotic
compatibility characters that normalize to URL delimiters) is modelled as
accepting; the bracket check of the netloc is the
`raise ValueError("Invalid IPv6 URL")` branch. -/
def urlsplitCore (url1 : Str) : Except Unit SplitR :=
  let (scheme, rest) :=
    match extractScheme url1 with
    | some sr => sr
    | none => ([], url1)
  if startsWithL rest (sL "//") then
    let (netloc, rest2) := splitNetloc (rest.drop 2)
    if ('[' ∈ netloc && !(']' ∈ netloc)) || (']' ∈ netloc && !('[' ∈ netloc)) then
      Except.error ()
    else
      let (body, fragment) :=
        match splitAtFirst '#' rest2 with
        | some ab => ab
        | none => (rest2, [])
      let (path, query) :=
        match splitAtFirst '?' body with
        | some ab => ab
        | none => (body, [])
      Except.ok ⟨scheme, netloc, path, query, fragment⟩
  else
    let (body, fragment) :=
      match splitAtFirst '#' rest with
      | some ab => ab
      | none => (rest, [])
    let (path, query) :=
      match splitAtFirst '?' body with
      | some ab => ab
      | none => (body, [])
    Except.ok ⟨scheme, [], path, query, fragment⟩

/-- `urlsplit(url)` with default arguments. -/
def urlsplitE (url0 : Str) : Except Unit SplitR :=
  urlsplitCore (stripControlChars url0)

/-- `_splitparams`: split at the first `;` at or after the last `/`. -/
def splitparams (url : Str) : Str × Str :=
  if '/' ∈ url then
    let revSuffix := url.reverse.takeWhile (fun c => !(c = '/'))
    let tail := revSuffix.reverse
    let pre := url.take (url.length - tail.length)
    match splitAtFirst ';' tail with
    | some (a, b) => (pre ++ a, b)
    | none => (url, [])
  else
    match splitAtFirst ';' url with
    | some (a, b) => (a, b)
    | none => (url, [])

/-- `urlparse` on an already-stripped string. -/
def urlparseCore (u1 : Str) : Except Unit ParseR :=
  match urlsplitCore u1 with
  | Except.error e => Except.error e
  | Except.ok s =>
    if s.scheme ∈ uses_params && ';' ∈ s.path then
      let (p, params) := splitparams s.path
      Except.ok ⟨s.scheme, s.netloc, p, params, s.query, s.fragment⟩
    else
      Except.ok ⟨s.scheme, s.netloc, s.path, [], s.query, s.fragment⟩

/-- `urlparse(url)` with default arguments. -/
def urlparseE (u : Str) : Except Unit ParseR :=
  urlparseCore (stripControlChars u)

/-- `urlunsplit(components)`. -/
def urlunsplit (s : SplitR) : Str :=
  let url := s.path
  let url :=
    if s.netloc ≠ [] ∨ (s.scheme ≠ [] ∧ s.scheme ∈ uses_netloc ∧ url.take 2 ≠ sL "//") then
      let u2 := if url ≠ [] ∧ url.head? ≠ some '/' then '/' :: url else url
      '/' :: '/' :: (s.netloc ++ u2)
    else url
  let url := if s.scheme ≠ [] then s.scheme ++ ':' :: url else url
  let url := if s.query ≠ [] then url ++ '?' :: s.query else url
  if s.fragment ≠ [] then url ++ '#' :: s.fragment else url

/-- `urlunparse(components)`. -/
def urlunparse (p : ParseR) : Str :=
  urlunsplit ⟨p.scheme, p.netloc,
    (if p.params ≠ [] then p.path ++ ';' :: p.params else p.path), p.query, p.fragment⟩

/-! ## `parse_qs` and `urlencode` (as the scripts call them:
`keep_blank_values=True`, `doseq=True`) -/

/-- `parse_qsl(qs, keep_blank_values=True)`. -/
def parse_qsl (qs : Str) : List (Str × Str) :=
  let query_args := if qs ≠ [] then splitOnChar '&' qs else []
  query_args.foldr
    (fun nv acc =>
      if nv = [] then acc
      else
        match splitAtFirst '=' nv with
        | some (n, v) => (unquote_plusM n, unquote_plusM v) :: acc
        | none => (unquote_plusM nv, []) :: acc)
    []

/-- Inserting one pair into the ordered dict `parse_qs` builds. -/
def addPair (acc : List (Str × List Str)) (k : Str) (v : Str) : List (Str × List Str) :=
  match acc with
  | [] => [(k, [v])]
  | (k0, vs) :: rest =>
    if k0 = k then (k0, vs ++ [v]) :: rest else (k0, vs) :: addPair rest k v

/-- `parse_qs(qs, keep_blank_values=True)`: pairs grouped by name in
first-occurrence order. -/
def parse_qs (qs : Str) : List (Str × List Str) :=
  (parse_qsl qs).foldl (fun acc kv => addPair acc kv.1 kv.2) []

/-- `urlencode(d, doseq=True)` on the ordered dict produced by `parse_qs`. -/
def urlencodeSeq (d : List (Str × List Str)) : Str :=
  intercalateChar '&'
    (d.foldr (fun kv acc => kv.2.map (fun v => quote_plus kv.1 ++ '=' :: quote_plus v) ++ acc) [])

/-! ## `clean_url` and `extract_domain` -/

/-- `TRACKING_PARAMS` (identical in `extract_links.py` and
`update_links.py`). -/
def TRACKING_PARAMS : List Str :=
  [sL "utm_source", sL "utm_medium", sL "utm_campaign", sL "utm_content",
   sL "utm_term", sL "fbclid", sL "igsh", sL "igshid", sL "gclid", sL "gclsrc",
   sL "ref", sL "rcm", sL "source", sL "mc_cid", sL "mc_eid", sL "trk",
   sL "lipi", sL "licu", sL "tag", sL "linkCode", sL "linkId", sL "share", sL "si"]

/-- `ESSENTIAL_PARAMS.get(domain, set())` of `extract_links.py` (the entries
whose value is an empty dict behave as the empty set). -/
def ESSENTIAL_PARAMS (domain : Str) : List Str :=
  if domain = sL "youtube.com" then [sL "v", sL "t", sL "list", sL "index"]
  else if domain = sL "youtu.be" then [sL "t"]
  else if domain = sL "twitter.com" then [sL "s"]
  else if domain = sL "x.com" then [sL "s"]
  else []

/-- `ESSENTIAL_PARAMS.get(domain, set())` of `update_links.py`. -/
def ESSENTIAL_PARAMS_UPD (domain : Str) : List Str :=
  if domain = sL "youtube.com" then [sL "v", sL "t", sL "list", sL "index"]
  else if domain = sL "youtu.be" then [sL "t"]
  else []

/-- `str.replace('www.', '')`: remove every occurrence, left to right. -/
def replaceWww : Str → Str
  | 'w' :: 'w' :: 'w' :: '.' :: r => replaceWww r
  | c :: r => c :: replaceWww r
  | [] => []

/-- The filter condition of `clean_url`:
`k.lower() not in TRACKING_PARAMS or k.lower() in essential`. -/
def keepParam (essential : List Str) (k : Str) : Bool :=
  !(lowerStr k ∈ TRACKING_PARAMS) || lowerStr k ∈ essential

/-- The component transformation of `clean_url`: query filtering, fragment
rule, trailing-slash stripping. -/
def cleanComponents (essential : Str → List Str) (p : ParseR) : ParseR :=
  let domain := lowerStr (replaceWww p.netloc)
  let ess := essential domain
  let new_query :=
    if p.query ≠ [] then
      let params := parse_qs p.query
      let filtered := params.filter (fun kv => keepParam ess kv.1)
      if filtered ≠ [] then urlencodeSeq filtered else []
    else []
  let fragment :=
    if p.fragment ≠ [] ∧ ¬ startsWithL p.fragment (sL "~") then p.fragment else []
  ⟨p.scheme, p.netloc,
   (if p.path ≠ sL "/" then rstripSlash p.path else p.path),
   p.params, new_query, fragment⟩

/-- `clean_url`, parameterized by the per-domain essential-parameter table
(the only difference between the two scripts' copies).  The `except` clause
of the Python code catches exactly the parse failure of the model. -/
def clean_url_with (essential : Str → List Str) (url : Str) : Str :=
  match urlparseE url with
  | Except.error _ => url
  | Except.ok p => urlunparse (cleanComponents essential p)

/-- `clean_url` of `extract_links.py`. -/
def clean_url (url : Str) : Str := clean_url_with ESSENTIAL_PARAMS url

/-- `clean_url` of `update_links.py`. -/
def clean_url_upd (url : Str) : Str := clean_url_with ESSENTIAL_PARAMS_UPD url

/-- `extract_domain` (identical logic in both scripts; the `except` branch
returns `'unknown'`). -/
def extract_domain (url : Str) : Str :=
  match urlparseE url with
  | Except.ok p => lowerStr (replaceWww p.netloc)
  | Except.error _ => sL "unknown"

/-! ## The message grammar (`MESSAGE_PATTERN`, identical in both scripts)

The regex
`^(\d{2}/\d{2}/\d{4})\s+\d{1,2}:\d{2}\s+da\s+(?:manhã|tarde|noite|madrugada)\s+-\s+([^:]+):\s*(.+)$`
is matched with `re.match` against single lines of `text.split('\n')` (so the
input never contains a newline).  On such input the pattern is deterministic
except in two places, which backtrack as follows: when the whitespace run
after the dash is immediately followed by `:`, the group `([^:]+)` matches the
last whitespace character of the run (possible only when the run has length at
least 2); and when everything after the sender's colon is whitespace, `\s*`
gives one character back so `(.+)` matches the final character. -/

/-- The captured groups of `MESSAGE_PATTERN`. -/
structure MsgGroups where
  date : Str
  sender : Str
  body : Str
  deriving DecidableEq, Repr

/-- Match exactly two ASCII digits. -/
def takeDigits2 (l : Str) : Option (Str × Str) :=
  match l with
  | a :: b :: r => if a.isDigit && b.isDigit then some ([a, b], r) else none
  | _ => none

/-- Match exactly four ASCII digits. -/
def takeDigits4 (l : Str) : Option (Str × Str) :=
  match l with
  | a :: b :: c :: d :: r =>
    if a.isDigit && b.isDigit && c.isDigit && d.isDigit then some ([a, b, c, d], r) else none
  | _ => none

/-- Require one specific character. -/
def expectChar (c : Char) (l : Str) : Option Str :=
  match l with
  | a :: r => if a = c then some r else none
  | [] => none

/-- `\s+`: at least one whitespace character, consumed maximally (always
followed in the pattern by a non-whitespace requirement, so maximal munch is
exact). -/
def wsPlus (l : Str) : Option Str :=
  match l with
  | c :: r => if isWsM c then some (r.dropWhile isWsM) else none
  | [] => none

/-- `\d{1,2}:` — one or two digits then a colon (greedy with backtracking:
two digits are preferred, and a shorter match succeeds only when the colon
follows the first digit). -/
def timeHourMatch (l : Str) : Option Str :=
  match l with
  | a :: b :: r =>
    if a.isDigit then
      if b.isDigit then expectChar ':' r
      else if b = ':' then some r
      else none
    else none
  | _ => none

/-- Match a literal string. -/
def matchLit : Str → Str → Option Str
  | [], l => some l
  | _ :: _, [] => none
  | c :: cs, d :: l => if c = d then matchLit cs l else none

/-- The day-period alternation `(?:manhã|tarde|noite|madrugada)` (no
alternative is a prefix of another, so first-match is exact). -/
def matchPeriodWord (l : Str) : Option Str :=
  match matchLit (sL "manhã") l with
  | some r => some r
  | none =>
    match matchLit (sL "tarde") l with
    | some r => some r
    | none =>
      match matchLit (sL "noite") l with
      | some r => some r
      | none => matchLit (sL "madrugada") l

/-- `\s+([^:]+):` after the dash, with the backtracking rule described above:
returns the sender group and the text after the colon. -/
def senderColonMatch (s : Str) : Option (Str × Str) :=
  let wsRun := s.takeWhile isWsM
  if wsRun = [] then none
  else
    match s.drop wsRun.length with
    | [] => none
    | c :: r =>
      if c = ':' then
        if 2 ≤ wsRun.length then
          match wsRun.reverse with
          | x :: _ => some ([x], r)
          | [] => none
        else none
      else
        let run := (s.drop wsRun.length).takeWhile (fun x => !(x = ':'))
        match (s.drop wsRun.length).dropWhile (fun x => !(x = ':')) with
        | ':' :: rest => some (run, rest)
        | _ => none

/-- `\s*(.+)$` on the newline-free remainder after the sender's colon. -/
def bodyMatch (r : Str) : Option Str :=
  if r = [] then none
  else
    let b := r.dropWhile isWsM
    if b = [] then
      match r.reverse with
      | x :: _ => some [x]
      | [] => none
    else some b

/-- The date group `(\d{2}/\d{2}/\d{4})`: `some (group, rest)`. -/
def dateGroupMatch (line : Str) : Option (Str × Str) :=
  match takeDigits2 line with
  | none => none
  | some (d1, r1) =>
    match expectChar '/' r1 with
    | none => none
    | some r2 =>
      match takeDigits2 r2 with
      | none => none
      | some (d2, r3) =>
        match expectChar '/' r3 with
        | none => none
        | some r4 =>
          match takeDigits4 r4 with
          | none => none
          | some (y, r5) => some (d1 ++ '/' :: d2 ++ '/' :: y, r5)

/-- The middle of the pattern, `\s+\d{1,2}:\d{2}\s+da\s+(?:manhã|tarde|noite|madrugada)\s+-`:
consumes from after the date group to after the dash. -/
def timePeriodDashMatch (r5 : Str) : Option Str :=
  match wsPlus r5 with
  | none => none
  | some r6 =>
    match timeHourMatch r6 with
    | none => none
    | some r7 =>
      match takeDigits2 r7 with
      | none => none
      | some (_, r8) =>
        match wsPlus r8 with
        | none => none
        | some r9 =>
          match matchLit (sL "da") r9 with
          | none => none
          | some r10 =>
            match wsPlus r10 with
            | none => none
            | some r11 =>
              match matchPeriodWord r11 with
              | none => none
              | some r12 =>
                match wsPlus r12 with
                | none => none
                | some r13 => expectChar '-' r13

/-- `MESSAGE_PATTERN.match(line)`: `some` of the three captured groups when
the line is a recognized message start. -/
def message_pattern_match (line : Str) : Option MsgGroups :=
  match dateGroupMatch line with
  | none => none
  | some (date, r5) =>
    match timePeriodDashMatch r5 with
    | none => none
    | some r14 =>
      match senderColonMatch r14 with
      | none => none
      | some (sender, r15) =>
        match bodyMatch r15 with
        | none => none
        | some body => some ⟨date, sender, body⟩

/-! ## The URL pattern (`URL_PATTERN`, identical in both scripts) -/

/-- The regex class `[^\s<>"\')\]]` (ASCII whitespace part of `\s`). -/
def isUrlChar (c : Char) : Bool :=
  !(isWsM c || c = '<' || c = '>' || c = '"' || c = '\'' || c = ')' || c = ']')

/-- Try to match `https?://[^\s<>"\')\]]+` at the start of `l`:
`some (match, rest)`. -/
def matchUrlAt (l : Str) : Option (Str × Str) :=
  match l with
  | 'h' :: 't' :: 't' :: 'p' :: rest =>
    let afterScheme : Option (Str × Str) :=
      match rest with
      | 's' :: ':' :: '/' :: '/' :: r => some (sL "https://", r)
      | ':' :: '/' :: '/' :: r => some (sL "http://", r)
      | _ => none
    match afterScheme with
    | some (pre, r) =>
      let run := r.takeWhile isUrlChar
      if run = [] then none else some (pre ++ run, r.drop run.length)
    | none => none
  | _ => none

/-- Worker for `url_pattern_findall`; the fuel is an upper bound on the scan
length (each step consumes at least one character). -/
def findallGo : Nat → Str → List Str
  | 0, _ => []
  | _ + 1, [] => []
  | fuel + 1, c :: r =>
    match matchUrlAt (c :: r) with
    | some (u, rest) => u :: findallGo fuel rest
    | none => findallGo fuel r

/-- `URL_PATTERN.findall(text)`: non-overlapping left-to-right maximal
matches. -/
def url_pattern_findall (s : Str) : List Str := findallGo s.length s

/-! ## `parse_whatsapp_export` (identical logic in both scripts) -/

/-- A raw URL mention: the dict `parse_whatsapp_export` yields.  Before any
message-start line has been seen, `date` and `shared_by` are `None`. -/
structure Mention where
  url_original : Str
  date : Option Str
  shared_by : Option Str
  deriving DecidableEq, Repr

/-- The loop state: `current_date`, `current_sender`, `current_message`. -/
structure PState where
  current_date : Option Str
  current_sender : Option Str
  current_message : List Str
  deriving DecidableEq, Repr

/-- The mentions yielded when the accumulated message is flushed
(`if current_message: ... URL_PATTERN.findall('\n'.join(current_message))`). -/
def flushMentions (st : PState) : List Mention :=
  if st.current_message ≠ [] then
    (url_pattern_findall (intercalateChar '\n' st.current_message)).map
      (fun u => ⟨u, st.current_date, st.current_sender⟩)
  else []

/-- The line loop of `parse_whatsapp_export`. -/
def parseLinesGo : List Str → PState → List Mention
  | [], st => flushMentions st
  | line :: rest, st =>
    match message_pattern_match line with
    | some g =>
      flushMentions st ++
        parseLinesGo rest ⟨some g.date, some (stripWs g.sender), [g.body]⟩
    | none =>
      if stripWs line ≠ [] then
        parseLinesGo rest ⟨st.current_date, st.current_sender, st.current_message ++ [line]⟩
      else parseLinesGo rest st

/-- `parse_whatsapp_export(text)` as the list of yielded mentions. -/
def parse_whatsapp_export (text : Str) : List Mention :=
  parseLinesGo (splitOnChar '\n' text) ⟨none, none, []⟩

/-! ## `generate_title` -/

/-- Python `str.title()` (ASCII part): a letter after a non-letter is
uppercased, a letter after a letter is lowercased. -/
def titleCaseGo : Bool → Str → Str
  | _, [] => []
  | prevAlpha, c :: r =>
    (if c.isAlpha then (if prevAlpha then c.toLower else c.toUpper) else c) ::
      titleCaseGo c.isAlpha r

/-- Python `str.title()` (ASCII part). -/
def titleCase (s : Str) : Str := titleCaseGo false s

/-- `str.strip('/')`. -/
def stripSlashBoth (l : Str) : Str :=
  ((l.dropWhile (fun c => c = '/')).reverse.dropWhile (fun c => c = '/')).reverse

/-- `str.replace('-', ' ')`. -/
def dashToSpace (l : Str) : Str := l.map (fun c => if c = '-' then ' ' else c)

/-- `re.sub(r'[-_]', ' ', s)`. -/
def dashUnderscoreToSpace (l : Str) : Str :=
  l.map (fun c => if c = '-' || c = '_' then ' ' else c)

/-- `re.sub(r'\.[a-z]+$', '', s)`: drop a trailing dot-plus-lowercase-letters
extension. -/
def stripDotExt (s : Str) : Str :=
  let rev := s.reverse
  let letters := rev.takeWhile (fun c => 'a' ≤ c && c ≤ 'z')
  if letters ≠ [] ∧ (rev.drop letters.length).head? = some '.' then
    (rev.drop (letters.length + 1)).reverse
  else s

/-- Worker for `splitOnSub`; the fuel bounds the scan (each step consumes at
least one character of a nonempty separator or of the text). -/
def splitOnSubGo : Nat → Str → Str → List Str
  | _, _, [] => [[]]
  | 0, _, s => [s]
  | fuel + 1, sep, c :: r =>
    if startsWithL (c :: r) sep then [] :: splitOnSubGo fuel sep ((c :: r).drop sep.length)
    else
      match splitOnSubGo fuel sep r with
      | p :: ps => (c :: p) :: ps
      | [] => [[c]]

/-- Python `str.split(sep)` for a nonempty separator. -/
def splitOnSub (sep s : Str) : List Str := splitOnSubGo s.length sep s

/-- First piece of a split (`[0]`). -/
def headDL (l : List Str) : Str := l.headD []

/-- Last piece of a split (`[-1]`). -/
def lastDL (l : List Str) : Str := l.getLastD []

/-- The generic fallback shared by both `generate_title` versions:
slug handling and the domain-name default. -/
def genericTitle (domain path : Str) : Str :=
  let fb : Option Str :=
    if path ≠ [] then
      let slug := stripDotExt (lastDL (splitOnChar '/' path))
      let slug := dashUnderscoreToSpace slug
      if 5 < slug.length ∧ slug.length < 80 then
        some (titleCase (headDL (splitOnChar '.' domain)) ++ sL " - " ++ slug.take 60)
      else none
    else none
  match fb with
  | some t => t
  | none => titleCase (headDL (splitOnChar '.' domain))

/-- `generate_title` of `extract_links.py` (the `except` branch returns
`domain`, reachable only through a parse failure). -/
def generate_title (url domain : Str) : Str :=
  match urlparseE url with
  | Except.error _ => domain
  | Except.ok parsed =>
    let path := stripSlashBoth parsed.path
    let li : Option Str :=
      if hasSub domain (sL "linkedin.com") then
        if hasSub path (sL "/in/") then
          let name := headDL (splitOnChar '/' (lastDL (splitOnSub (sL "/in/") path)))
          some (sL "LinkedIn - " ++ titleCase (dashToSpace name))
        else if hasSub path (sL "/posts/") || hasSub path (sL "/feed/") then
          some (sL "LinkedIn - Post")
        else if hasSub path (sL "/company/") then
          let company := headDL (splitOnChar '/' (lastDL (splitOnSub (sL "/company/") path)))
          some (sL "LinkedIn - " ++ titleCase (dashToSpace company))
        else none
      else none
    match li with
    | some t => t
    | none =>
      if hasSub domain (sL "youtube.com") || hasSub domain (sL "youtu.be") then
        sL "YouTube - Vídeo"
      else if hasSub domain (sL "instagram.com") then
        (if path ≠ [] then sL "Instagram - @" ++ headDL (splitOnChar '/' path)
         else sL "Instagram")
      else if hasSub domain (sL "twitter.com") || hasSub domain (sL "x.com") then
        (if path ≠ [] then sL "X/Twitter - @" ++ headDL (splitOnChar '/' path)
         else sL "X/Twitter")
      else if hasSub domain (sL "docs.google.com") then
        (if hasSub path (sL "/document/") then sL "Google Docs - Documento"
         else if hasSub path (sL "/spreadsheets/") then sL "Google Sheets - Planilha"
         else if hasSub path (sL "/presentation/") then sL "Google Slides - Apresentação"
         else sL "Google Docs")
      else if hasSub domain (sL "open.spotify.com") then
        (if hasSub path (sL "/episode/") then sL "Spotify - Podcast"
         else if hasSub path (sL "/track/") then sL "Spotify - Música"
         else if hasSub path (sL "/playlist/") then sL "Spotify - Playlist"
         else sL "Spotify")
      else if hasSub domain (sL "github.com") then
        (let parts := splitOnChar '/' path
         if 2 ≤ parts.length then
           sL "GitHub - " ++ headDL parts ++ '/' :: headDL (parts.drop 1)
         else sL "GitHub")
      else if hasSub domain (sL "medium.com") then sL "Medium - Artigo"
      else if hasSub domain (sL "amazon.com") || hasSub domain (sL "amazon.com.br") then
        sL "Amazon - Produto"
      else genericTitle domain path

/-- `generate_title` of `update_links.py`. -/
def generate_title_upd (url domain : Str) : Str :=
  match urlparseE url with
  | Except.error _ => domain
  | Except.ok parsed =>
    let path := stripSlashBoth parsed.path
    let li : Option Str :=
      if hasSub domain (sL "linkedin.com") then
        if hasSub path (sL "/in/") then
          let name :=
            titleCase (dashToSpace
              (headDL (splitOnChar '/' (lastDL (splitOnSub (sL "/in/") path)))))
          some (sL "LinkedIn - " ++ name)
        else if hasSub path (sL "/posts/") || hasSub path (sL "/feed/") then
          some (sL "LinkedIn - Post")
        else none
      else none
    match li with
    | some t => t
    | none =>
      if hasSub domain (sL "youtube.com") || hasSub domain (sL "youtu.be") then
        sL "YouTube - Vídeo"
      else if hasSub domain (sL "instagram.com") then
        (if path ≠ [] then sL "Instagram - @" ++ headDL (splitOnChar '/' path)
         else sL "Instagram")
      else if hasSub domain (sL "docs.google.com") then
        (if hasSub path (sL "/document/") then sL "Google Docs - Documento"
         else if hasSub path (sL "/spreadsheets/") then sL "Google Sheets - Planilha"
         else sL "Google Docs")
      else if hasSub domain (sL "open.spotify.com") then
        (if hasSub path (sL "/episode/") then sL "Spotify - Podcast"
         else sL "Spotify")
      else genericTitle domain path

/-! ## Link records and the extraction entry points -/

/-- A link record: the ad-hoc dicts of the scripts, with one optional field
per key that may be absent or `None` (both modelled as `none`). -/
structure LinkR where
  url : Str
  url_original : Option Str
  domain : Str
  title : Option Str
  title_source : Option Str
  description : Option Str
  shared_by : Option Str
  date : Option Str
  status : Option Str
  status_code : Option Nat
  final_url : Option Str
  enriched : Option Bool
  enrich_status : Option Str
  deriving DecidableEq, Repr

/-- A placeholder record (used only as the default of `getD`). -/
def dummyLink : LinkR :=
  ⟨[], none, [], none, none, none, none, none, none, none, none, none, none⟩

/-- The record `extract_links` (`extract_links.py`) stores for a first-seen
canonical URL: `status='pending'`, and no `enriched` key. -/
def mkExtractLink (uc : Str) (m : Mention) : LinkR :=
  let domain := extract_domain uc
  { url := uc
    url_original := if m.url_original ≠ uc then some m.url_original else none
    domain := domain
    title := some (generate_title uc domain)
    title_source := none
    description := none
    shared_by := m.shared_by
    date := m.date
    status := some (sL "pending")
    status_code := none
    final_url := none
    enriched := none
    enrich_status := none }

/-- The loop of `extract_links`: `seen_urls` is modelled by the accumulated
record list (dict values in insertion order; membership is a key test). -/
def extract_links_go : List Mention → List LinkR → Option Nat → List LinkR
  | [], acc, _ => acc
  | m :: ms, acc, limit =>
    let uc := clean_url m.url_original
    if acc.any (fun l => l.url = uc) then extract_links_go ms acc limit
    else
      let acc2 := acc ++ [mkExtractLink uc m]
      match limit with
      | some lim =>
        if lim ≠ 0 ∧ lim ≤ acc2.length then acc2 else extract_links_go ms acc2 (some lim)
      | none => extract_links_go ms acc2 none

/-- `extract_links(input_path, limit)` of `extract_links.py`, on the file's
text. -/
def extract_links (text : Str) (limit : Option Nat) : List LinkR :=
  extract_links_go (parse_whatsapp_export text) [] limit

/-- The record `extract_new_links` (`update_links.py`) appends for a new
canonical URL: `enriched=False`, and no `status` key. -/
def mkUpdLink (uc : Str) (m : Mention) : LinkR :=
  let domain := extract_domain uc
  { url := uc
    url_original := if m.url_original ≠ uc then some m.url_original else none
    domain := domain
    title := some (generate_title_upd uc domain)
    title_source := none
    description := none
    shared_by := m.shared_by
    date := m.date
    status := none
    status_code := none
    final_url := none
    enriched := some false
    enrich_status := none }

/-- The loop of `extract_new_links`: `seen` is the per-batch set. -/
def extract_new_links_go : List Mention → List Str → List LinkR → List Str → List LinkR
  | [], _, acc, _ => acc
  | m :: ms, existing, acc, seen =>
    let uc := clean_url_upd m.url_original
    if uc ∈ existing ∨ uc ∈ seen then extract_new_links_go ms existing acc seen
    else extract_new_links_go ms existing (acc ++ [mkUpdLink uc m]) (seen ++ [uc])

/-- `extract_new_links(conversation_path, existing_urls)` of
`update_links.py`, on the file's text. -/
def extract_new_links (text : Str) (existing_urls : List Str) : List LinkR :=
  extract_new_links_go (parse_whatsapp_export text) existing_urls [] []

/-- The merge step of `update_links.main`:
`merged = new_links + existing_links`. -/
def mergeLinks (new_links existing_links : List LinkR) : List LinkR :=
  new_links ++ existing_links

/-! ## `validate_url` / `validate_urls` (`extract_links.py`)

The network is modelled by the outcome each HEAD request produces: a
response (with final URL after redirects and status code), an
`httpx.TimeoutException`, an `httpx.RequestError`, or any other exception.
The cooperative scheduling of the probes is modelled by the order in which
the first (progress-reporting) pass completes; the semaphore bounds only
in-flight concurrency and has no effect on any returned value. -/

/-- The outcome of one probe. -/
inductive ProbeOutcome where
  | response (status_code : Nat) (final_url : Str)
  | timeoutExc
  | requestError
  | otherException
  deriving DecidableEq, Repr

/-- The validation dict one probe produces. -/
structure ValidationR where
  status : Str
  status_code : Option Nat
  final_url : Option Str
  deriving DecidableEq, Repr

/-- `validate_url(client, url, semaphore)`: the classification of one
probe's outcome. -/
def validate_url (url : Str) (outcome : ProbeOutcome) : ValidationR :=
  match outcome with
  | ProbeOutcome.response code fin =>
    ⟨if code < 400 then sL "valid" else sL "invalid", some code,
     if fin ≠ url then some fin else none⟩
  | ProbeOutcome.timeoutExc => ⟨sL "timeout", none, none⟩
  | ProbeOutcome.requestError => ⟨sL "error", none, none⟩
  | ProbeOutcome.otherException => ⟨sL "error", none, none⟩

/-- `link.update(validation)`. -/
def applyValidation (l : LinkR) (v : ValidationR) : LinkR :=
  { l with status := some v.status, status_code := v.status_code, final_url := v.final_url }

/-- `validate_urls(links, concurrency)`.  The first pass consumes the probes
in completion order purely to drive the progress bar and is then discarded;
the authoritative result list is rebuilt by `asyncio.gather`, which returns
results in task-submission order. -/
def validate_urls (links : List LinkR) (concurrency : Nat)
    (firstPass secondPass : Nat → ProbeOutcome) (completionOrder : List Nat) : List LinkR :=
  let _inFlightBound := concurrency
  let _progressResults :=
    completionOrder.map (fun i => validate_url (links.getD i dummyLink).url (firstPass i))
  let results :=
    (List.range links.length).map (fun i => validate_url (links.getD i dummyLink).url (secondPass i))
  List.zipWith applyValidation links results

/-! ## `enrich_link` (`enrich_links.py` and `update_links.py`)

The browser session is modelled by the outcome of the navigation plus
metadata extraction: success carries the metadata dict `extract_metadata`
builds (every lookup inside it swallows its own failures), a
`PlaywrightTimeout`, or any other exception with its message. -/

/-- The outcome of one enrichment navigation. -/
inductive NavOutcome where
  | success (title : Option Str) (description : Option Str)
  | timeoutNav
  | failure (msg : Str)
  deriving DecidableEq, Repr

/-- `enrich_link(browser, link, timeout)` of `enrich_links.py`: operates on
`result = link.copy()`; metadata fields are taken only when truthy
(non-empty). -/
def enrich_link (link : LinkR) (nav : NavOutcome) : LinkR :=
  match nav with
  | NavOutcome.success t d =>
    let r1 :=
      match t with
      | some tv =>
        if tv ≠ [] then { link with title := some tv, title_source := some (sL "extracted") }
        else link
      | none => link
    let r2 :=
      match d with
      | some dv => if dv ≠ [] then { r1 with description := some dv } else r1
      | none => r1
    { r2 with enriched := some true, enrich_status := some (sL "success") }
  | NavOutcome.timeoutNav =>
    { link with enriched := some false, enrich_status := some (sL "timeout") }
  | NavOutcome.failure msg =>
    { link with enriched := some false, enrich_status := some (sL "error: " ++ msg.take 100) }

/-- `enrich_link(browser, link, timeout)` of `update_links.py` (no
`title_source`, error text truncated to 50). -/
def enrich_link_upd (link : LinkR) (nav : NavOutcome) : LinkR :=
  match nav with
  | NavOutcome.success t d =>
    let r1 :=
      match t with
      | some tv => if tv ≠ [] then { link with title := some tv } else link
      | none => link
    let r2 :=
      match d with
      | some dv => if dv ≠ [] then { r1 with description := some dv } else r1
      | none => r1
    { r2 with enriched := some true, enrich_status := some (sL "success") }
  | NavOutcome.timeoutNav =>
    { link with enriched := some false, enrich_status := some (sL "timeout") }
  | NavOutcome.failure msg =>
    { link with enriched := some false, enrich_status := some (sL "error: " ++ msg.take 50) }

/-! # Theorems

Helper lemmas first, then one theorem per claim (with its witness or
counterexample). -/

/-- A placeholder validation record (default of `getD`). -/
def dummyValidation : ValidationR := ⟨[], none, none⟩

theorem getD_zipWith {α β γ : Type} (f : α → β → γ) (l1 : List α) (l2 : List β)
    (d1 : α) (d2 : β) (d3 : γ) :
    ∀ i : Nat, i < l1.length → i < l2.length →
      (List.zipWith f l1 l2).getD i d3 = f (l1.getD i d1) (l2.getD i d2) := by
  induction l1 generalizing l2 with
  | nil => intro i h1 _; simp at h1
  | cons a t ih =>
    intro i h1 h2
    cases l2 with
    | nil => simp at h2
    | cons b t2 =>
      cases i with
      | zero => rfl
      | succ j =>
        simp only [List.zipWith_cons_cons, List.getD_cons_succ]
        exact ih t2 j (by simpa using h1) (by simpa using h2)

theorem getD_map {α γ : Type} (f : α → γ) (l : List α) (d : γ) (d' : α) :
    ∀ i : Nat, i < l.length → (l.map f).getD i d = f (l.getD i d') := by
  induction l with
  | nil => intro i h; simp at h
  | cons a t ih =>
    intro i h
    cases i with
    | zero => rfl
    | succ j =>
      simp only [List.map_cons, List.getD_cons_succ]
      exact ih j (by simpa using h)

theorem getD_range (n : Nat) (d : Nat) : ∀ i : Nat, i < n → (List.range n).getD i d = i := by
  intro i h
  rw [List.getD_eq_getElem _ _ (by simpa using h)]
  simp

/-- C2.  Merge postcondition: merging M new links (no URL overlap with the
existing store) into a store of K links yields K+M entries whose first M
entries are the new links in order and whose last K entries are the existing
links unchanged and in order. -/
theorem c2_merge_postcondition (new_links existing : List LinkR)
    (hdisj : ∀ l ∈ new_links, ∀ e ∈ existing, l.url ≠ e.url) :
    (mergeLinks new_links existing).length = existing.length + new_links.length ∧
    (mergeLinks new_links existing).take new_links.length = new_links ∧
    (mergeLinks new_links existing).drop new_links.length = existing := by
  refine ⟨?_, List.take_left new_links existing, List.drop_left new_links existing⟩
  simp [mergeLinks, Nat.add_comm]

/-- Witness for `c2_merge_postcondition` at a concrete merge. -/
theorem c2_merge_postcondition_witness :
    (mergeLinks [{ dummyLink with url := sL "https://a.com" }]
        [{ dummyLink with url := sL "https://b.com" }]).length = 1 + 1 ∧
    (mergeLinks [{ dummyLink with url := sL "https://a.com" }]
        [{ dummyLink with url := sL "https://b.com" }]).take 1 =
      [{ dummyLink with url := sL "https://a.com" }] ∧
    (mergeLinks [{ dummyLink with url := sL "https://a.com" }]
        [{ dummyLink with url := sL "https://b.com" }]).drop 1 =
      [{ dummyLink with url := sL "https://b.com" }] :=
  c2_merge_postcondition [{ dummyLink with url := sL "https://a.com" }]
    [{ dummyLink with url := sL "https://b.com" }] (by decide)

/-- C4.  Validator order preservation: the output has the input's length, its
i-th entry is the i-th input link updated with the classification of its own
(second-pass) probe, and the result does not depend on the first
(progress-reporting) pass or on the completion order. -/
theorem c4_validator_order_preservation (links : List LinkR) (concurrency : Nat)
    (net1 net2 : Nat → ProbeOutcome) (order : List Nat)
    (hconc : concurrency < links.length) :
    (validate_urls links concurrency net1 net2 order).length = links.length ∧
    (∀ i, i < links.length →
      (validate_urls links concurrency net1 net2 order).getD i dummyLink =
        applyValidation (links.getD i dummyLink)
          (validate_url (links.getD i dummyLink).url (net2 i))) ∧
    (∀ net1b order2,
      validate_urls links concurrency net1 net2 order =
        validate_urls links concurrency net1b net2 order2) := by
  refine ⟨?_, ?_, fun _ _ => rfl⟩
  · simp [validate_urls, List.length_zipWith]
  · intro i hi
    show (List.zipWith applyValidation links _).getD i dummyLink = _
    rw [getD_zipWith applyValidation links _ dummyLink dummyValidation dummyLink i hi
      (by simpa using hi)]
    rw [getD_map _ _ dummyValidation 0 i (by simpa using hi)]
    rw [getD_range links.length 0 i hi]

/-- Witness for `c4_validator_order_preservation` at two links and
concurrency 1. -/
theorem c4_validator_order_preservation_witness :
    (validate_urls [dummyLink, dummyLink] 1 (fun _ => ProbeOutcome.timeoutExc)
        (fun _ => ProbeOutcome.requestError) [1, 0]).length = 2 :=
  (c4_validator_order_preservation [dummyLink, dummyLink] 1
    (fun _ => ProbeOutcome.timeoutExc) (fun _ => ProbeOutcome.requestError) [1, 0]
    (by decide)).1

/-- C5.  Per-link classification: a response probe is `valid` exactly when
its status code is below 400 and `invalid` exactly when it is at least 400;
a timeout maps to `timeout` and any other failure to `error`; `final_url` is
recorded exactly when the final URL differs from the probed one; and each
link's result depends only on its own probe, so one link's failure never
prevents the others from being processed. -/
theorem c5_per_link_classification (url fin : Str) (code : Nat) :
    ((validate_url url (ProbeOutcome.response code fin)).status = sL "valid" ↔ code < 400) ∧
    ((validate_url url (ProbeOutcome.response code fin)).status = sL "invalid" ↔ 400 ≤ code) ∧
    (validate_url url (ProbeOutcome.response code fin)).status_code = some code ∧
    ((validate_url url (ProbeOutcome.response code fin)).final_url = none ↔ fin = url) ∧
    (fin ≠ url → (validate_url url (ProbeOutcome.response code fin)).final_url = some fin) ∧
    (validate_url url ProbeOutcome.timeoutExc).status = sL "timeout" ∧
    (validate_url url ProbeOutcome.requestError).status = sL "error" ∧
    (validate_url url ProbeOutcome.otherException).status = sL "error" ∧
    (∀ (links : List LinkR) (conc : Nat) (n1 n2 : Nat → ProbeOutcome)
        (order : List Nat) (i : Nat), i < links.length →
      (validate_urls links conc n1 n2 order).getD i dummyLink =
        applyValidation (links.getD i dummyLink)
          (validate_url (links.getD i dummyLink).url (n2 i))) := by
  have hvi : sL "valid" ≠ sL "invalid" := by decide
  refine ⟨?_, ?_, rfl, ?_, ?_, rfl, rfl, rfl, ?_⟩
  · show (if code < 400 then sL "valid" else sL "invalid") = sL "valid" ↔ code < 400
    by_cases hc : code < 400
    · rw [if_pos hc]; exact iff_of_true rfl hc
    · rw [if_neg hc]; exact iff_of_false (fun h => hvi h.symm) hc
  · show (if code < 400 then sL "valid" else sL "invalid") = sL "invalid" ↔ 400 ≤ code
    by_cases hc : code < 400
    · rw [if_pos hc]; exact iff_of_false (fun h => hvi h) (by omega)
    · rw [if_neg hc]; exact iff_of_true rfl (by omega)
  · show (if fin ≠ url then some fin else none) = none ↔ fin = url
    by_cases hf : fin = url
    · simp [hf]
    · simp [hf]
  · intro hf
    show (if fin ≠ url then some fin else none) = some fin
    rw [if_pos hf]
  · intro links conc n1 n2 order i hi
    show (List.zipWith applyValidation links _).getD i dummyLink = _
    rw [getD_zipWith applyValidation links _ dummyLink dummyValidation dummyLink i hi
      (by simpa using hi)]
    rw [getD_map _ _ dummyValidation 0 i (by simpa using hi)]
    rw [getD_range links.length 0 i hi]

/-- Witness for `c5_per_link_classification`: a 200 response with a changed
final URL is `valid`. -/
theorem c5_per_link_classification_witness :
    (validate_url (sL "http://a.com") (ProbeOutcome.response 200 (sL "http://b.com"))).status =
      sL "valid" :=
  (c5_per_link_classification (sL "http://a.com") (sL "http://b.com") 200).1.mpr (by decide)

/-- C10.  Enrichment-failure frame: when `enrich_link` (either script's
version) ends in the timeout or error outcome, every field of the returned
record other than `enriched` and `enrich_status` equals the corresponding
field of the input link.  The embedding is a pure function of the input
record, which captures that the Python code mutates only `result =
link.copy()` and never the input dict. -/
theorem c10_enrich_failure_frame (link : LinkR) (nav : NavOutcome)
    (hfail : nav = NavOutcome.timeoutNav ∨ ∃ msg, nav = NavOutcome.failure msg) :
    ((enrich_link link nav).url = link.url ∧
     (enrich_link link nav).url_original = link.url_original ∧
     (enrich_link link nav).domain = link.domain ∧
     (enrich_link link nav).title = link.title ∧
     (enrich_link link nav).title_source = link.title_source ∧
     (enrich_link link nav).description = link.description ∧
     (enrich_link link nav).shared_by = link.shared_by ∧
     (enrich_link link nav).date = link.date ∧
     (enrich_link link nav).status = link.status ∧
     (enrich_link link nav).status_code = link.status_code ∧
     (enrich_link link nav).final_url = link.final_url) ∧
    ((enrich_link_upd link nav).url = link.url ∧
     (enrich_link_upd link nav).url_original = link.url_original ∧
     (enrich_link_upd link nav).domain = link.domain ∧
     (enrich_link_upd link nav).title = link.title ∧
     (enrich_link_upd link nav).title_source = link.title_source ∧
     (enrich_link_upd link nav).description = link.description ∧
     (enrich_link_upd link nav).shared_by = link.shared_by ∧
     (enrich_link_upd link nav).date = link.date ∧
     (enrich_link_upd link nav).status = link.status ∧
     (enrich_link_upd link nav).status_code = link.status_code ∧
     (enrich_link_upd link nav).final_url = link.final_url) := by
  rcases hfail with h | ⟨msg, h⟩ <;> subst h <;>
    exact ⟨⟨rfl, rfl, rfl, rfl, rfl, rfl, rfl, rfl, rfl, rfl, rfl⟩,
           ⟨rfl, rfl, rfl, rfl, rfl, rfl, rfl, rfl, rfl, rfl, rfl⟩⟩

/-- Witness for `c10_enrich_failure_frame` at a concrete timeout. -/
theorem c10_enrich_failure_frame_witness :
    (enrich_link dummyLink NavOutcome.timeoutNav).title = dummyLink.title :=
  (c10_enrich_failure_frame dummyLink NavOutcome.timeoutNav (Or.inl rfl)).1.2.2.2.1

/-- C8, counterexample: a well-formed line that omits the day-period word is
not recognized as a message start (the claim asserts it is). -/
theorem c8_counterexample :
    message_pattern_match (sL "05/08/2025 10:00 - Ana: oi") = none := by decide

/-- C8, amended: the localized day-period word (preceded by `da`) is
mandatory in the message grammar, not optional — no line whose time field is
followed directly by the dash is recognized, however it continues, while the
same line with a day-period word is recognized. -/
theorem c8_amended_day_period_mandatory :
    (∀ rest : Str, message_pattern_match (sL "05/08/2025 10:00 - " ++ rest) = none) ∧
    message_pattern_match (sL "05/08/2025 10:00 da manhã - Ana: oi") =
      some ⟨sL "05/08/2025", sL "Ana", sL "oi"⟩ := by
  refine ⟨fun rest => rfl, by decide⟩

/-- Witness for `c8_amended_day_period_mandatory` at a concrete
continuation. -/
theorem c8_amended_day_period_mandatory_witness :
    message_pattern_match (sL "05/08/2025 10:00 - " ++ sL "Ana: oi") = none :=
  c8_amended_day_period_mandatory.1 (sL "Ana: oi")

/-- C9, counterexample: a genuinely new link produced by
`extract_links.py` carries `status='pending'` but no `enriched` flag at all,
and one produced by `update_links.py` carries `enriched=False` but no
`status` field — neither creation site sets both, contradicting the claim. -/
theorem c9_counterexample :
    (extract_links (sL "05/08/2025 10:00 da manhã - Ana: https://exz.com/a") none).map
        (fun l => (l.status, l.enriched)) = [(some (sL "pending"), none)] ∧
    (extract_new_links (sL "05/08/2025 10:00 da manhã - Ana: https://exz.com/a") []).map
        (fun l => (l.status, l.enriched)) = [(none, some false)] := by
  constructor
  · decide
  · decide

theorem extract_links_go_fields (ms : List Mention) (acc : List LinkR) (limit : Option Nat)
    (hacc : ∀ l ∈ acc, l.status = some (sL "pending") ∧ l.enriched = none) :
    ∀ l ∈ extract_links_go ms acc limit, l.status = some (sL "pending") ∧ l.enriched = none := by
  induction ms generalizing acc limit with
  | nil => exact hacc
  | cons m ms ih =>
    intro l hl
    rw [extract_links_go] at hl
    by_cases hmem : acc.any (fun l => l.url = clean_url m.url_original)
    · rw [if_pos hmem] at hl
      exact ih acc limit hacc l hl
    · rw [if_neg hmem] at hl
      have hacc2 : ∀ x ∈ acc ++ [mkExtractLink (clean_url m.url_original) m],
          x.status = some (sL "pending") ∧ x.enriched = none := by
        intro x hx
        rcases List.mem_append.mp hx with h | h
        · exact hacc x h
        · rcases List.mem_singleton.mp h with rfl
          exact ⟨rfl, rfl⟩
      cases limit with
      | none => exact ih _ none hacc2 l hl
      | some lim =>
        dsimp only at hl
        by_cases hbrk : lim ≠ 0 ∧ lim ≤ (acc ++ [mkExtractLink (clean_url m.url_original) m]).length
        · rw [if_pos hbrk] at hl
          exact hacc2 l hl
        · rw [if_neg hbrk] at hl
          exact ih _ (some lim) hacc2 l hl

theorem extract_new_links_go_fields (ms : List Mention) (existing : List Str)
    (acc : List LinkR) (seen : List Str)
    (hacc : ∀ l ∈ acc, l.enriched = some false ∧ l.status = none) :
    ∀ l ∈ extract_new_links_go ms existing acc seen,
      l.enriched = some false ∧ l.status = none := by
  induction ms generalizing acc seen with
  | nil => exact hacc
  | cons m ms ih =>
    intro l hl
    rw [extract_new_links_go] at hl
    by_cases hmem : clean_url_upd m.url_original ∈ existing ∨ clean_url_upd m.url_original ∈ seen
    · rw [if_pos hmem] at hl
      exact ih acc seen hacc l hl
    · rw [if_neg hmem] at hl
      refine ih _ _ ?_ l hl
      intro x hx
      rcases List.mem_append.mp hx with h | h
      · exact hacc x h
      · rcases List.mem_singleton.mp h with rfl
        exact ⟨rfl, rfl⟩

/-- C9, amended: every genuinely new link returned by `extract_links`
(`extract_links.py`) is initialized with validation status `pending` and no
enrichment flag, and every one returned by `extract_new_links`
(`update_links.py`) is initialized with `enriched = false` and no validation
status — each creation site sets exactly one of the two fields the claim
asserts for both. -/
theorem c9_amended_new_link_initialization (text text2 : Str) (limit : Option Nat)
    (existing : List Str) (l l2 : LinkR)
    (h1 : l ∈ extract_links text limit) (h2 : l2 ∈ extract_new_links text2 existing) :
    l.status = some (sL "pending") ∧ l.enriched = none ∧
    l2.enriched = some false ∧ l2.status = none := by
  have a := extract_links_go_fields (parse_whatsapp_export text) [] limit (by simp) l h1
  have b := extract_new_links_go_fields (parse_whatsapp_export text2) existing [] [] (by simp) l2 h2
  exact ⟨a.1, a.2, b.1, b.2⟩

/-- Witness for `c9_amended_new_link_initialization` on a concrete
transcript. -/
theorem c9_amended_new_link_initialization_witness :
    (mkExtractLink (sL "https://exz.com/a")
        ⟨sL "https://exz.com/a", some (sL "05/08/2025"), some (sL "Ana")⟩).status =
      some (sL "pending") :=
  (c9_amended_new_link_initialization
    (sL "05/08/2025 10:00 da manhã - Ana: https://exz.com/a")
    (sL "05/08/2025 10:00 da manhã - Ana: https://exz.com/a") none []
    (mkExtractLink (sL "https://exz.com/a")
      ⟨sL "https://exz.com/a", some (sL "05/08/2025"), some (sL "Ana")⟩)
    (mkUpdLink (sL "https://exz.com/a")
      ⟨sL "https://exz.com/a", some (sL "05/08/2025"), some (sL "Ana")⟩)
    (by decide) (by decide)).1

/-- A placeholder mention (default of `getD`). -/
def dummyMention : Mention := ⟨[], none, none⟩

/-- The link the dedup loop keeps for canonical URL `c`: the one built from
the first mention whose canonical form is `c`, if any. -/
def firstLinkFor (c : Str) (ms : List Mention) : List LinkR :=
  match ms.find? (fun m => clean_url m.url_original = c) with
  | some m => [mkExtractLink (clean_url m.url_original) m]
  | none => []

theorem extract_links_go_filter (c : Str) (ms : List Mention) :
    ∀ acc : List LinkR,
      (extract_links_go ms acc none).filter (fun l => l.url = c) =
        acc.filter (fun l => l.url = c) ++
          (if acc.any (fun l => l.url = c) then [] else firstLinkFor c ms) := by
  induction ms with
  | nil =>
    intro acc
    rw [extract_links_go]
    by_cases h : acc.any (fun l => l.url = c)
    · simp [h, firstLinkFor]
    · simp [h, firstLinkFor]
  | cons m ms ih =>
    intro acc
    rw [extract_links_go]
    by_cases hmem : acc.any (fun l => l.url = clean_url m.url_original)
    · rw [if_pos hmem, ih acc]
      by_cases hc : clean_url m.url_original = c
      · have hmc : acc.any (fun l => l.url = c) := by rw [← hc]; exact hmem
        rw [if_pos hmc, if_pos hmc]
      · have hfind : firstLinkFor c (m :: ms) = firstLinkFor c ms := by
          unfold firstLinkFor
          rw [List.find?_cons_of_neg _ (by simpa using hc)]
        rw [hfind]
    · rw [if_neg hmem, ih (acc ++ [mkExtractLink (clean_url m.url_original) m])]
      rw [List.filter_append, List.any_append]
      by_cases hc : clean_url m.url_original = c
      · have haccnil : acc.filter (fun l => l.url = c) = [] := by
          rw [List.filter_eq_nil_iff]
          intro a ha hpa
          exact hmem (List.any_eq_true.mpr ⟨a, ha, by rw [hc]; exact hpa⟩)
        have hone : ([mkExtractLink (clean_url m.url_original) m]).filter
            (fun l => l.url = c) = [mkExtractLink (clean_url m.url_original) m] := by
          rw [List.filter_cons_of_pos (by simpa using hc)]
          rfl
        have hany1 : ([mkExtractLink (clean_url m.url_original) m]).any
            (fun l => l.url = c) = true := by
          simpa using hc
        have hanyacc : acc.any (fun l => l.url = c) = false := by
          rw [← hc]
          exact Bool.eq_false_iff.mpr hmem
        rw [haccnil, hone, hanyacc, hany1]
        have hfind : firstLinkFor c (m :: ms) =
            [mkExtractLink (clean_url m.url_original) m] := by
          unfold firstLinkFor
          rw [List.find?_cons_of_pos _ (by simpa using hc)]
        rw [hfind]
        simp
      · have hzero : ([mkExtractLink (clean_url m.url_original) m]).filter
            (fun l => l.url = c) = [] := by
          rw [List.filter_cons_of_neg (by simpa using hc)]
          rfl
        have hany0 : ([mkExtractLink (clean_url m.url_original) m]).any
            (fun l => l.url = c) = false := by
          simpa using hc
        have hfind : firstLinkFor c (m :: ms) = firstLinkFor c ms := by
          unfold firstLinkFor
          rw [List.find?_cons_of_neg _ (by simpa using hc)]
        rw [hzero, hany0, hfind]
        simp

/-- The link the `extract_new_links` loop keeps for canonical URL `c`: the
one built from the first mention whose canonical form is `c`, if any. -/
def firstUpdLinkFor (c : Str) (ms : List Mention) : List LinkR :=
  match ms.find? (fun m => clean_url_upd m.url_original = c) with
  | some m => [mkUpdLink (clean_url_upd m.url_original) m]
  | none => []

theorem extract_new_links_go_filter (c : Str) (ms : List Mention) :
    ∀ (existing : List Str) (acc : List LinkR) (seen : List Str), c ∉ existing →
      (extract_new_links_go ms existing acc seen).filter (fun l => l.url = c) =
        acc.filter (fun l => l.url = c) ++
          (if c ∈ seen then [] else firstUpdLinkFor c ms) := by
  induction ms with
  | nil =>
    intro existing acc seen _
    rw [extract_new_links_go]
    by_cases h : c ∈ seen
    · simp [h, firstUpdLinkFor]
    · simp [h, firstUpdLinkFor]
  | cons m ms ih =>
    intro existing acc seen hcex
    rw [extract_new_links_go]
    by_cases hcond : clean_url_upd m.url_original ∈ existing ∨
        clean_url_upd m.url_original ∈ seen
    · rw [if_pos hcond, ih existing acc seen hcex]
      by_cases hc : clean_url_upd m.url_original = c
      · have hcs : c ∈ seen := by
          rcases hcond with h | h
          · exact absurd (hc ▸ h) hcex
          · exact hc ▸ h
        rw [if_pos hcs, if_pos hcs]
      · have hfind : firstUpdLinkFor c (m :: ms) = firstUpdLinkFor c ms := by
          unfold firstUpdLinkFor
          rw [List.find?_cons_of_neg _ (by simpa using hc)]
        rw [hfind]
    · rw [if_neg hcond,
          ih existing (acc ++ [mkUpdLink (clean_url_upd m.url_original) m])
            (seen ++ [clean_url_upd m.url_original]) hcex]
      push_neg at hcond
      rw [List.filter_append]
      by_cases hc : clean_url_upd m.url_original = c
      · have hcseen : c ∉ seen := hc ▸ hcond.2
        have hone : ([mkUpdLink (clean_url_upd m.url_original) m]).filter
            (fun l => l.url = c) = [mkUpdLink (clean_url_upd m.url_original) m] := by
          rw [List.filter_cons_of_pos (by simpa using hc)]
          rfl
        have hinseen : c ∈ seen ++ [clean_url_upd m.url_original] := by
          rw [hc] at hcond ⊢
          exact List.mem_append_right _ (by simp)
        rw [if_pos hinseen, if_neg hcseen]
        have hfind : firstUpdLinkFor c (m :: ms) =
            [mkUpdLink (clean_url_upd m.url_original) m] := by
          unfold firstUpdLinkFor
          rw [List.find?_cons_of_pos _ (by simpa using hc)]
        rw [hfind, hone]
        simp
      · have hzero : ([mkUpdLink (clean_url_upd m.url_original) m]).filter
            (fun l => l.url = c) = [] := by
          rw [List.filter_cons_of_neg (by simpa using hc)]
          rfl
        have hseen2 : (c ∈ seen ++ [clean_url_upd m.url_original]) ↔ c ∈ seen := by
          simp only [List.mem_append, List.mem_singleton]
          constructor
          · rintro (h | h)
            · exact h
            · exact absurd h.symm hc
          · exact Or.inl
        have hfind : firstUpdLinkFor c (m :: ms) = firstUpdLinkFor c ms := by
          unfold firstUpdLinkFor
          rw [List.find?_cons_of_neg _ (by simpa using hc)]
        rw [hzero, hfind]
        by_cases hcs : c ∈ seen
        · rw [if_pos hcs, if_pos (hseen2.mpr hcs)]
          simp
        · rw [if_neg hcs, if_neg (fun h => hcs (hseen2.mp h))]
          simp

/-- C3.  First-seen-wins deduplication, in both scripts' extraction loops:
when two URL mentions of a transcript canonicalize to the same string `c`,
`extract_links` (`extract_links.py`) produces exactly one link with URL `c`,
and that link carries the `shared_by` and `date` of the first mention (in
transcript order) whose canonical form is `c`; and `extract_new_links`
(`update_links.py`), run against stored URLs that do not contain `c`,
likewise keeps exactly one link with URL `c`, carrying the `shared_by` and
`date` of the first mention whose canonical form (under its own
`clean_url`) is `c`. -/
theorem c3_dedup_first_seen_wins (text c : Str) (existing : List Str) (i j : Nat)
    (hij : i < j) (hj : j < (parse_whatsapp_export text).length) :
    (clean_url ((parse_whatsapp_export text).getD i dummyMention).url_original = c →
     clean_url ((parse_whatsapp_export text).getD j dummyMention).url_original = c →
     ((extract_links text none).filter (fun l => l.url = c)).length = 1 ∧
     (∀ l ∈ extract_links text none, l.url = c →
       ∃ m, (parse_whatsapp_export text).find? (fun m => clean_url m.url_original = c) =
           some m ∧ l.shared_by = m.shared_by ∧ l.date = m.date)) ∧
    (c ∉ existing →
     clean_url_upd ((parse_whatsapp_export text).getD i dummyMention).url_original = c →
     clean_url_upd ((parse_whatsapp_export text).getD j dummyMention).url_original = c →
     ((extract_new_links text existing).filter (fun l => l.url = c)).length = 1 ∧
     (∀ l ∈ extract_new_links text existing, l.url = c →
       ∃ m, (parse_whatsapp_export text).find? (fun m => clean_url_upd m.url_original = c) =
           some m ∧ l.shared_by = m.shared_by ∧ l.date = m.date)) := by
  have hi : i < (parse_whatsapp_export text).length := Nat.lt_trans hij hj
  have hmemi : (parse_whatsapp_export text).getD i dummyMention ∈ parse_whatsapp_export text := by
    rw [List.getD_eq_getElem _ _ hi]
    exact List.getElem_mem hi
  constructor
  · intro hci hcj
    have hfs : ((parse_whatsapp_export text).find?
        (fun m => clean_url m.url_original = c)).isSome := by
      rw [List.find?_isSome]
      exact ⟨_, hmemi, by simpa using hci⟩
    obtain ⟨m0, hm0⟩ := Option.isSome_iff_exists.mp hfs
    have hfl : (extract_links text none).filter (fun l => l.url = c) =
        [mkExtractLink (clean_url m0.url_original) m0] := by
      have h := extract_links_go_filter c (parse_whatsapp_export text) []
      rw [extract_links] at *
      simpa [firstLinkFor, hm0] using h
    constructor
    · rw [hfl]; rfl
    · intro l hl hlc
      have hlm : l ∈ (extract_links text none).filter (fun l => l.url = c) :=
        List.mem_filter.mpr ⟨hl, by simpa using hlc⟩
      rw [hfl] at hlm
      rcases List.mem_singleton.mp hlm with rfl
      exact ⟨m0, hm0, rfl, rfl⟩
  · intro hcex hci hcj
    have hfs : ((parse_whatsapp_export text).find?
        (fun m => clean_url_upd m.url_original = c)).isSome := by
      rw [List.find?_isSome]
      exact ⟨_, hmemi, by simpa using hci⟩
    obtain ⟨m0, hm0⟩ := Option.isSome_iff_exists.mp hfs
    have hfl : (extract_new_links text existing).filter (fun l => l.url = c) =
        [mkUpdLink (clean_url_upd m0.url_original) m0] := by
      have h := extract_new_links_go_filter c (parse_whatsapp_export text) existing [] [] hcex
      rw [extract_new_links] at *
      simpa [firstUpdLinkFor, hm0] using h
    constructor
    · rw [hfl]; rfl
    · intro l hl hlc
      have hlm : l ∈ (extract_new_links text existing).filter (fun l => l.url = c) :=
        List.mem_filter.mpr ⟨hl, by simpa using hlc⟩
      rw [hfl] at hlm
      rcases List.mem_singleton.mp hlm with rfl
      exact ⟨m0, hm0, rfl, rfl⟩

/-- Witness for `c3_dedup_first_seen_wins`: a transcript in which Ana's and
Bob's mentions canonicalize to the same URL keeps only Ana's, in both
extraction loops (with no stored URLs for `extract_new_links`). -/
theorem c3_dedup_first_seen_wins_witness :
    ((extract_links
        (sL "05/08/2025 10:00 da manhã - Ana: https://exz.com/a?utm_source=w\n06/08/2025 11:00 da tarde - Bob: https://exz.com/a")
        none).filter (fun l => l.url = sL "https://exz.com/a")).length = 1 ∧
    ((extract_new_links
        (sL "05/08/2025 10:00 da manhã - Ana: https://exz.com/a?utm_source=w\n06/08/2025 11:00 da tarde - Bob: https://exz.com/a")
        []).filter (fun l => l.url = sL "https://exz.com/a")).length = 1 := by
  have h := c3_dedup_first_seen_wins
    (sL "05/08/2025 10:00 da manhã - Ana: https://exz.com/a?utm_source=w\n06/08/2025 11:00 da tarde - Bob: https://exz.com/a")
    (sL "https://exz.com/a") [] 0 1 (by decide) (by decide)
  exact ⟨(h.1 (by decide) (by decide)).1,
    (h.2 (by simp) (by decide) (by decide)).1⟩

/-! ### Claim C7: preamble handling -/

theorem splitOnChar_no_delim (d : Char) :
    ∀ x : Str, d ∉ x → splitOnChar d x = [x] := by
  intro x
  induction x with
  | nil => intro _; rfl
  | cons c r ih =>
    intro hd
    rw [splitOnChar]
    rw [if_neg (by intro h; exact hd (h ▸ List.mem_cons_self c r))]
    rw [ih (fun h => hd (List.mem_cons_of_mem c h))]

theorem splitOnChar_append_delim (d : Char) :
    ∀ x rest : Str, d ∉ x → splitOnChar d (x ++ d :: rest) = x :: splitOnChar d rest := by
  intro x
  induction x with
  | nil =>
    intro rest _
    rw [List.nil_append, splitOnChar, if_pos rfl]
  | cons c r ih =>
    intro rest hd
    rw [List.cons_append, splitOnChar]
    rw [if_neg (by intro h; exact hd (h ▸ List.mem_cons_self c r))]
    rw [ih rest (fun h => hd (List.mem_cons_of_mem c h))]

theorem splitOnChar_intercalateChar (d : Char) :
    ∀ L : List Str, L ≠ [] → (∀ l ∈ L, d ∉ l) →
      splitOnChar d (intercalateChar d L) = L := by
  intro L
  induction L with
  | nil => intro h; exact absurd rfl h
  | cons x L ih =>
    intro _ hd
    cases L with
    | nil =>
      show splitOnChar d x = [x]
      exact splitOnChar_no_delim d x (hd x (by simp))
    | cons y L2 =>
      show splitOnChar d (x ++ d :: intercalateChar d (y :: L2)) = x :: (y :: L2)
      rw [splitOnChar_append_delim d x _ (hd x (by simp))]
      rw [ih (by simp) (fun l hl => hd l (List.mem_cons_of_mem x hl))]

theorem parseLinesGo_preamble (pre : List Str) :
    ∀ (ls : List Str) (dt sn : Option Str) (buf : List Str),
      (∀ l ∈ pre, message_pattern_match l = none) →
      parseLinesGo (pre ++ ls) ⟨dt, sn, buf⟩ =
        parseLinesGo ls ⟨dt, sn, buf ++ pre.filter (fun l => stripWs l ≠ [])⟩ := by
  induction pre with
  | nil => intro ls dt sn buf _; simp
  | cons p pre ih =>
    intro ls dt sn buf hpre
    have hp : message_pattern_match p = none := hpre p (by simp)
    rw [List.cons_append, parseLinesGo, hp]
    by_cases hb : stripWs p ≠ []
    · rw [if_pos hb]
      rw [ih ls dt sn (buf ++ [p]) (fun l hl => hpre l (List.mem_cons_of_mem p hl))]
      rw [List.filter_cons_of_pos (by simpa using hb), List.append_assoc]
      rfl
    · rw [if_neg hb]
      rw [ih ls dt sn buf (fun l hl => hpre l (List.mem_cons_of_mem p hl))]
      rw [List.filter_cons_of_neg (by simpa using hb)]

/-- C7, counterexample: a preamble line containing a URL does produce a
`RawURLMention` (with `date` and `shared_by` equal to `None`), contradicting
the claim that such lines are silently dropped by the parser. -/
theorem c7_counterexample :
    parse_whatsapp_export
        (sL "preamble http://a.com here\n05/08/2025 10:00 da manhã - Ana: oi") =
      [⟨sL "http://a.com", none, none⟩] := by decide

/-- C7, amended: lines before the first recognized message-start line are
not dropped — they are accumulated (whitespace-only lines excepted) as a
message with no date and no sender, and every URL in them is emitted as a
`RawURLMention` with `date = None` and `shared_by = None`, ahead of the
mentions of the properly headed messages; no error is raised. -/
theorem c7_amended_preamble (pre : List Str) (m : Str) (rest : List Str)
    (hnl : ∀ l ∈ pre ++ m :: rest, '\n' ∉ l)
    (hpre : ∀ l ∈ pre, message_pattern_match l = none)
    (hm : (message_pattern_match m).isSome) :
    parse_whatsapp_export (intercalateChar '\n' (pre ++ m :: rest)) =
      (url_pattern_findall
          (intercalateChar '\n' (pre.filter (fun l => stripWs l ≠ [])))).map
        (fun u => ⟨u, none, none⟩) ++
      parse_whatsapp_export (intercalateChar '\n' (m :: rest)) := by
  obtain ⟨g, hg⟩ := Option.isSome_iff_exists.mp hm
  have hsplit1 : splitOnChar '\n' (intercalateChar '\n' (pre ++ m :: rest)) =
      pre ++ m :: rest :=
    splitOnChar_intercalateChar '\n' (pre ++ m :: rest) (by simp) hnl
  have hsplit2 : splitOnChar '\n' (intercalateChar '\n' (m :: rest)) = m :: rest :=
    splitOnChar_intercalateChar '\n' (m :: rest) (by simp)
      (fun l hl => hnl l (List.mem_append.mpr (Or.inr hl)))
  rw [parse_whatsapp_export, hsplit1, parse_whatsapp_export, hsplit2]
  rw [parseLinesGo_preamble pre (m :: rest) none none [] hpre]
  rw [List.nil_append]
  rw [parseLinesGo, hg, parseLinesGo, hg]
  have hflush0 : flushMentions ⟨none, none, []⟩ = [] := rfl
  rw [hflush0, List.nil_append]
  have hflush : flushMentions ⟨none, none, pre.filter (fun l => stripWs l ≠ [])⟩ =
      (url_pattern_findall
          (intercalateChar '\n' (pre.filter (fun l => stripWs l ≠ [])))).map
        (fun u => ⟨u, none, none⟩) := by
    rw [flushMentions]
    by_cases hfp : pre.filter (fun l => stripWs l ≠ []) ≠ []
    · rw [if_pos hfp]
    · rw [if_neg hfp]
      rw [not_not.mp hfp]
      rfl
  rw [hflush]
  simp

/-- Witness for `c7_amended_preamble` on a concrete preamble. -/
theorem c7_amended_preamble_witness :
    parse_whatsapp_export
        (intercalateChar '\n'
          ([sL "pre http://a.com x"] ++ (sL "05/08/2025 10:00 da manhã - Ana: oi") :: [])) =
      (url_pattern_findall
          (intercalateChar '\n'
            (([sL "pre http://a.com x"]).filter (fun l => stripWs l ≠ [])))).map
        (fun u => ⟨u, none, none⟩) ++
      parse_whatsapp_export
        (intercalateChar '\n' ((sL "05/08/2025 10:00 da manhã - Ana: oi") :: [])) :=
  c7_amended_preamble [sL "pre http://a.com x"] (sL "05/08/2025 10:00 da manhã - Ana: oi")
    [] (by decide) (by decide) (by decide)

/-! ### Claim C1: machinery for the idempotence proof

First the UTF-8 round trip (`decode (encode s) = s`), then the `quote_plus`
round trip, the `parse_qs` / `urlencode` round trip, and finally the
re-parse of `urlunparse` output. -/

theorem mem_of_mem_stripControlChars (l : Str) (c : Char) (h : c ∈ stripControlChars l) :
    c ∈ l :=
  (List.mem_filter.mp h).1

theorem pair_eq_parts {α β : Type} {a b : α} {c d : β} (h : (a, c) = (b, d)) :
    a = b ∧ c = d :=
  ⟨congrArg Prod.fst h, congrArg Prod.snd h⟩

theorem urlunsplit_fragment (s2 : SplitR) :
    urlunsplit s2 =
      urlunsplit ⟨s2.scheme, s2.netloc, s2.path, s2.query, []⟩ ++
        (if s2.fragment ≠ [] then '#' :: s2.fragment else []) := by
  obtain ⟨sch, nl, pth, q, f⟩ := s2
  unfold urlunsplit
  dsimp only
  rw [if_neg (show ¬(([] : Str) ≠ []) by simp)]
  by_cases hf : f ≠ []
  · rw [if_pos hf, if_pos hf]
  · rw [if_neg hf, if_neg hf, List.append_nil]

theorem clean_url_with_fragment_rule (ess : Str → List Str) (p : ParseR) :
    urlunparse (cleanComponents ess p) =
      urlunparse (cleanComponents ess ⟨p.scheme, p.netloc, p.path, p.params, p.query, []⟩) ++
        (if p.fragment ≠ [] ∧ ¬(startsWithL p.fragment (sL "~") = true)
         then '#' :: p.fragment else []) := by
  obtain ⟨sch, nl, pth, prm, qu, fr⟩ := p
  dsimp only
  have hcc1 : cleanComponents ess ⟨sch, nl, pth, prm, qu, fr⟩ =
      ⟨sch, nl, (if pth ≠ sL "/" then rstripSlash pth else pth), prm,
        (if qu ≠ [] then
          (if (parse_qs qu).filter (fun kv => keepParam (ess (lowerStr (replaceWww nl))) kv.1) ≠ []
           then urlencodeSeq
              ((parse_qs qu).filter (fun kv => keepParam (ess (lowerStr (replaceWww nl))) kv.1))
           else [])
         else []),
        (if fr ≠ [] ∧ ¬(startsWithL fr (sL "~") = true) then fr else [])⟩ := rfl
  have hcc2 : cleanComponents ess ⟨sch, nl, pth, prm, qu, []⟩ =
      ⟨sch, nl, (if pth ≠ sL "/" then rstripSlash pth else pth), prm,
        (if qu ≠ [] then
          (if (parse_qs qu).filter (fun kv => keepParam (ess (lowerStr (replaceWww nl))) kv.1) ≠ []
           then urlencodeSeq
              ((parse_qs qu).filter (fun kv => keepParam (ess (lowerStr (replaceWww nl))) kv.1))
           else [])
         else []), []⟩ := rfl
  rw [hcc1, hcc2]
  unfold urlunparse
  dsimp only
  rw [urlunsplit_fragment]
  dsimp only
  congr 1
  by_cases hk : fr ≠ [] ∧ ¬(startsWithL fr (sL "~") = true)
  · rw [if_pos hk, if_pos hk, if_pos hk.1]
  · rw [if_neg hk, if_neg hk]
    rw [if_neg (show ¬(([] : Str) ≠ []) by simp)]

/-- C6, amended: the code's fragment rule is the opposite of the claimed one.
For every URL whose parse succeeds, the canonical output is exactly the
canonicalization of the same parse with the fragment removed, followed by
`#` and the fragment verbatim when the fragment is nonempty and does not
begin with `~`; when the fragment is empty or begins with `~`, nothing is
appended — the fragment is dropped.  Both scripts' copies of `clean_url`. -/
theorem c6_amended_fragment_rule (url : Str) (p : ParseR)
    (hparse : urlparseE url = Except.ok p) :
    clean_url url =
      urlunparse (cleanComponents ESSENTIAL_PARAMS
        ⟨p.scheme, p.netloc, p.path, p.params, p.query, []⟩) ++
        (if p.fragment ≠ [] ∧ ¬(startsWithL p.fragment (sL "~") = true)
         then '#' :: p.fragment else []) ∧
    clean_url_upd url =
      urlunparse (cleanComponents ESSENTIAL_PARAMS_UPD
        ⟨p.scheme, p.netloc, p.path, p.params, p.query, []⟩) ++
        (if p.fragment ≠ [] ∧ ¬(startsWithL p.fragment (sL "~") = true)
         then '#' :: p.fragment else []) := by
  have h1 : clean_url url = urlunparse (cleanComponents ESSENTIAL_PARAMS p) := by
    unfold clean_url clean_url_with
    rw [hparse]
  have h2 : clean_url_upd url = urlunparse (cleanComponents ESSENTIAL_PARAMS_UPD p) := by
    unfold clean_url_upd clean_url_with
    rw [hparse]
  rw [h1, h2]
  exact ⟨clean_url_with_fragment_rule ESSENTIAL_PARAMS p,
    clean_url_with_fragment_rule ESSENTIAL_PARAMS_UPD p⟩

theorem c6_amended_fragment_rule_witness :
    urlparseE (sL "https://exz.com/p#sec") =
      Except.ok ⟨sL "https", sL "exz.com", sL "/p", [], [], sL "sec"⟩ ∧
    (clean_url (sL "https://exz.com/p#sec") =
      urlunparse (cleanComponents ESSENTIAL_PARAMS
        ⟨sL "https", sL "exz.com", sL "/p", [], [], []⟩) ++
        (if (sL "sec" : Str) ≠ [] ∧ ¬(startsWithL (sL "sec") (sL "~") = true)
         then '#' :: sL "sec" else []) ∧
     clean_url_upd (sL "https://exz.com/p#sec") =
      urlunparse (cleanComponents ESSENTIAL_PARAMS_UPD
        ⟨sL "https", sL "exz.com", sL "/p", [], [], []⟩) ++
        (if (sL "sec" : Str) ≠ [] ∧ ¬(startsWithL (sL "sec") (sL "~") = true)
         then '#' :: sL "sec" else [])) :=
  ⟨by rfl,
   c6_amended_fragment_rule (sL "https://exz.com/p#sec")
     ⟨sL "https", sL "exz.com", sL "/p", [], [], sL "sec"⟩ (by rfl)⟩

/-- C6, counterexample: `clean_url` keeps an ordinary fragment verbatim and
drops a fragment that begins with `~` — the opposite of the claimed rule
(shown for both scripts' copies). -/
theorem c6_counterexample :
    clean_url (sL "https://exz.com/p#~anchor") = sL "https://exz.com/p" ∧
    clean_url (sL "https://exz.com/p#sec") = sL "https://exz.com/p#sec" ∧
    clean_url_upd (sL "https://exz.com/p#~anchor") = sL "https://exz.com/p" ∧
    clean_url_upd (sL "https://exz.com/p#sec") = sL "https://exz.com/p#sec" := by
  refine ⟨by decide, by decide, by decide, by decide⟩

end WaTools
